import Mathlib

set_option maxRecDepth 40000

/-!
Verification of the imgix URL-builder client (Go package `imgix`).

The Go source in `imgix.go` is shallowly embedded below.  Strings are
modelled as Lean `String`; Go byte strings are recovered through an
explicit UTF-8 encoder (`strBytes`), matching Go source files, whose
string literals are UTF-8.  Go `int` is modelled as `Int` with Go's
truncated `%` (`Int.tmod`).  Panics are modelled with `Except`.
Methods with pointer receiver `*Client` are modelled in state-passing
style: each returns its result together with the receiver state after
the call (for methods containing no assignment that state is the input,
unchanged).
-/

namespace Imgix

/-! ### UTF-8 bytes of a string (Go strings are UTF-8 byte sequences) -/

/-- UTF-8 encoding of a single character, one `Nat` per byte. -/
def charUtf8 (c : Char) : List Nat :=
  let n := c.toNat
  if n < 128 then [n]
  else if n < 2048 then [192 + n / 64, 128 + n % 64]
  else if n < 65536 then [224 + n / 4096, 128 + (n / 64) % 64, 128 + n % 64]
  else [240 + n / 262144, 128 + (n / 4096) % 64, 128 + (n / 64) % 64, 128 + n % 64]

/-- The UTF-8 bytes of a string. -/
def strBytes (s : String) : List Nat :=
  s.data.flatMap charUtf8

/-! ### Hexadecimal digits -/

/-- Uppercase hexadecimal digit for a value below 16. -/
def hexDigitU (n : Nat) : Char :=
  if n < 10 then Char.ofNat (48 + n) else Char.ofNat (55 + n)

/-- Lowercase hexadecimal digit for a value below 16
(Go `encoding/hex` uses the lowercase alphabet). -/
def hexDigitL (n : Nat) : Char :=
  if n < 10 then Char.ofNat (48 + n) else Char.ofNat (87 + n)

/-- Auxiliary recursion for `natHexUpper`, fuelled. -/
def natHexAux (fuel n : Nat) : List Char :=
  match fuel with
  | 0 => []
  | fuel + 1 => if n = 0 then [] else natHexAux fuel (n / 16) ++ [hexDigitU (n % 16)]

/-- Uppercase hexadecimal of a natural number with no padding and no
leading zeros, as produced by Go `strings.ToUpper(fmt.Sprintf("%x", n))`. -/
def natHexUpper (n : Nat) : List Char :=
  if n = 0 then [Char.ofNat 48] else natHexAux n n

/-! ### Byte-wise lexicographic order on strings (Go `sort.Strings`) -/

/-- Lexicographic comparison of byte lists; Go compares strings byte-wise. -/
def lexLe : List Nat → List Nat → Bool
  | [], _ => true
  | _ :: _, [] => false
  | a :: as, b :: bs => if a < b then true else if b < a then false else lexLe as bs

/-! ### Go `net/url` escaping -/

/-- Bytes Go `url.QueryEscape` leaves unescaped: ASCII alphanumerics
and `-`, `_`, `.`, `~`. -/
def queryUnreservedByte (b : Nat) : Bool :=
  (65 ≤ b && b ≤ 90) || (97 ≤ b && b ≤ 122) || (48 ≤ b && b ≤ 57) ||
    b == 45 || b == 95 || b == 46 || b == 126

/-- Percent escape of one byte, uppercase hexadecimal, always two digits. -/
def byteHexUpper (b : Nat) : List Char :=
  [Char.ofNat 37, hexDigitU (b / 16 % 16), hexDigitU (b % 16)]

/-- Escape of one byte in Go query-component mode: unreserved bytes kept,
space becomes a plus sign, every other byte percent-escaped. -/
def queryEscapeByte (b : Nat) : List Char :=
  if queryUnreservedByte b then [Char.ofNat b]
  else if b == 32 then [Char.ofNat 43]
  else byteHexUpper b

/-- Go `url.QueryEscape`. -/
def QueryEscape (s : String) : String :=
  String.mk ((strBytes s).flatMap queryEscapeByte)

/-- Bytes Go leaves unescaped in host position: the query-unreserved set
plus the sub-delimiters and brackets allowed by `encodeHost` mode. -/
def hostUnescapedByte (b : Nat) : Bool :=
  queryUnreservedByte b ||
    b == 33 || b == 36 || b == 38 || b == 39 || b == 40 || b == 41 ||
    b == 42 || b == 43 || b == 44 || b == 59 || b == 61 || b == 58 ||
    b == 91 || b == 93 || b == 60 || b == 62 || b == 34

/-- Escape of one byte in Go host mode. -/
def hostEscapeByte (b : Nat) : List Char :=
  if hostUnescapedByte b then [Char.ofNat b] else byteHexUpper b

/-- Go escaping of `u.Host` inside `url.URL.String`. -/
def escapeHost (s : String) : String :=
  String.mk ((strBytes s).flatMap hostEscapeByte)

/-- The string produced by `url.URL{Scheme: scheme, Host: host}.String()`:
the scheme, a colon, and, when the host is non-empty, two slashes and the
host escaped in host mode. -/
def urlStringOf (scheme host : String) : String :=
  scheme ++ ":" ++ (if host = "" then "" else "//" ++ escapeHost host)

/-! ### Go `url.Values` and its canonical encoding -/

/-- Model of Go `url.Values` (`map[string][]string`) as an association
list; a Go map corresponds to a list with pairwise distinct keys, and
`len` of the map is the number of entries. -/
abbrev Values := List (String × List String)

/-- Key order used by `url.Values.Encode`, which sorts the keys with
`sort.Strings` (byte-wise lexicographic). -/
def keyLE (a b : String × List String) : Prop :=
  lexLe (strBytes a.1) (strBytes b.1) = true

instance : DecidableRel keyLE := fun _ _ =>
  inferInstanceAs (Decidable (_ = true))

/-- The parameter entries in the key order `url.Values.Encode` uses. -/
def sortedParams (ps : Values) : Values :=
  List.insertionSort keyLE ps

/-- The `key=value` fragments written by `url.Values.Encode`, in order:
keys sorted, each value of a key in sequence, key and value query-escaped. -/
def encodePieces (ps : Values) : List String :=
  (sortedParams ps).flatMap fun kv =>
    kv.2.map fun v => QueryEscape kv.1 ++ "=" ++ QueryEscape v

/-- Join with ampersands: `url.Values.Encode` writes an ampersand before
every fragment except the first (each fragment is non-empty, so the
buffer-length test of the Go loop is exactly this). -/
def joinAmp : List String → String
  | [] => ""
  | [x] => x
  | x :: y :: xs => x ++ "&" ++ joinAmp (y :: xs)

/-- Go `url.Values.Encode`: the fragments joined by ampersands. -/
def Encode (ps : Values) : String :=
  joinAmp (encodePieces ps)

/-- Character-level embedding of line 161 of `imgix.go`,
`strings.Replace(parameterString, "+", "%%20", -1)`: the pattern is the
single character plus, so the call replaces every plus character by the
four-character string percent-percent-two-zero (`strings.Replace` performs
no format-verb expansion). -/
def replacePlusChar (c : Char) : List Char :=
  if c == Char.ofNat 43 then [Char.ofNat 37, Char.ofNat 37, Char.ofNat 50, Char.ofNat 48]
  else [c]

/-- See `replacePlusChar`. -/
def replacePlus (s : String) : String :=
  String.mk (s.data.flatMap replacePlusChar)

/-! ### The regular expression `https?://` -/

/-- Whether the regular expression `https?://` matches at the head of the
character list (the two alternatives exclude each other at any position). -/
def schemeMatchAt (l : List Char) : Bool :=
  ("https://".data).isPrefixOf l || ("http://".data).isPrefixOf l

/-- `RegexpHTTPAndS.MatchString`: the pattern `https?://` is unanchored,
so it matches when it matches at any position. -/
def containsSchemeL : List Char → Bool
  | [] => false
  | c :: rest => schemeMatchAt (c :: rest) || containsSchemeL rest

/-- See `containsSchemeL`. -/
def matchesHTTPAndS (s : String) : Bool :=
  containsSchemeL s.data

/-- Fuelled scan for `RegexpHTTPAndS.ReplaceAllString(host, "")`: every
occurrence of `http://` or `https://` is removed, scanning left to right
and resuming after each match. -/
def stripSchemeAux (fuel : Nat) (l : List Char) : List Char :=
  match fuel with
  | 0 => l
  | fuel + 1 =>
    match l with
    | [] => []
    | c :: rest =>
      if ("https://".data).isPrefixOf (c :: rest) then stripSchemeAux fuel (rest.drop 7)
      else if ("http://".data).isPrefixOf (c :: rest) then stripSchemeAux fuel (rest.drop 6)
      else c :: stripSchemeAux fuel rest

/-- `RegexpHTTPAndS.ReplaceAllString(s, "")`. -/
def stripScheme (s : String) : String :=
  String.mk (stripSchemeAux s.data.length s.data)

/-! ### `cgiEscape` -/

/-- The character class `[ a-zA-Z0-9_.-]`; `RegexUrlCharactersToEscape`
matches exactly the single characters outside it. -/
def cgiKeepChar (c : Char) : Prop :=
  c = Char.ofNat 32 ∨ (Char.ofNat 97 ≤ c ∧ c ≤ Char.ofNat 122) ∨
    (Char.ofNat 65 ≤ c ∧ c ≤ Char.ofNat 90) ∨
    (Char.ofNat 48 ≤ c ∧ c ≤ Char.ofNat 57) ∨
    c = Char.ofNat 95 ∨ c = Char.ofNat 46 ∨ c = Char.ofNat 45

instance (c : Char) : Decidable (cgiKeepChar c) := by
  unfold cgiKeepChar; infer_instance

/-- Replacement applied by `cgiEscape` to one matched character: a percent
sign followed by `strings.ToUpper(fmt.Sprintf("%x", rune))`, the uppercase
unpadded hexadecimal of the character's code point (the matched string is
one rune, which `utf8.DecodeLastRuneInString` returns). -/
def cgiEscapeChar (c : Char) : List Char :=
  if cgiKeepChar c then [c] else Char.ofNat 37 :: natHexUpper c.toNat

/-- The function `cgiEscape` of `imgix.go`:
`RegexUrlCharactersToEscape.ReplaceAllStringFunc` over the string. -/
def cgiEscape (s : String) : String :=
  String.mk (s.data.flatMap cgiEscapeChar)

/-! ### CRC-32 (IEEE), as `hash/crc32.ChecksumIEEE` -/

/-- The reflected IEEE polynomial 0xEDB88320. -/
def crc32Poly : Nat := 0xEDB88320

/-- One bit step of the reflected CRC-32. -/
def crc32Step (crc : Nat) : Nat :=
  if crc % 2 == 1 then (crc / 2) ^^^ crc32Poly else crc / 2

/-- Absorb one byte into the checksum state. -/
def crc32Byte (crc b : Nat) : Nat :=
  (List.range 8).foldl (fun c _ => crc32Step c) (crc ^^^ b)

/-- `crc32.ChecksumIEEE` over a byte list. -/
def crc32 (bs : List Nat) : Nat :=
  (bs.foldl crc32Byte 0xFFFFFFFF) ^^^ 0xFFFFFFFF

/-! ### MD5, as `crypto/md5` (RFC 1321) -/

/-- Two to the thirty-second power, the word modulus. -/
def m32 : Nat := 4294967296

/-- Rotate a 32-bit word left by `s` bits. -/
def rotl32 (x s : Nat) : Nat :=
  ((x <<< s) ||| (x >>> (32 - s))) % m32

/-- The MD5 sine-derived constant table. -/
def md5K : List Nat :=
  [0xd76aa478, 0xe8c7b756, 0x242070db, 0xc1bdceee,
   0xf57c0faf, 0x4787c62a, 0xa8304613, 0xfd469501,
   0x698098d8, 0x8b44f7af, 0xffff5bb1, 0x895cd7be,
   0x6b901122, 0xfd987193, 0xa679438e, 0x49b40821,
   0xf61e2562, 0xc040b340, 0x265e5a51, 0xe9b6c7aa,
   0xd62f105d, 0x02441453, 0xd8a1e681, 0xe7d3fbc8,
   0x21e1cde6, 0xc33707d6, 0xf4d50d87, 0x455a14ed,
   0xa9e3e905, 0xfcefa3f8, 0x676f02d9, 0x8d2a4c8a,
   0xfffa3942, 0x8771f681, 0x6d9d6122, 0xfde5380c,
   0xa4beea44, 0x4bdecfa9, 0xf6bb4b60, 0xbebfbc70,
   0x289b7ec6, 0xeaa127fa, 0xd4ef3085, 0x04881d05,
   0xd9d4d039, 0xe6db99e5, 0x1fa27cf8, 0xc4ac5665,
   0xf4292244, 0x432aff97, 0xab9423a7, 0xfc93a039,
   0x655b59c3, 0x8f0ccc92, 0xffeff47d, 0x85845dd1,
   0x6fa87e4f, 0xfe2ce6e0, 0xa3014314, 0x4e0811a1,
   0xf7537e82, 0xbd3af235, 0x2ad7d2bb, 0xeb86d391]

/-- The MD5 per-round left-rotation amounts. -/
def md5S : List Nat :=
  [7, 12, 17, 22, 7, 12, 17, 22, 7, 12, 17, 22, 7, 12, 17, 22,
   5, 9, 14, 20, 5, 9, 14, 20, 5, 9, 14, 20, 5, 9, 14, 20,
   4, 11, 16, 23, 4, 11, 16, 23, 4, 11, 16, 23, 4, 11, 16, 23,
   6, 10, 15, 21, 6, 10, 15, 21, 6, 10, 15, 21, 6, 10, 15, 21]

/-- The MD5 round function for operation `i`. -/
def md5F (i b c d : Nat) : Nat :=
  if i < 16 then (b &&& c) ||| ((b ^^^ 4294967295) &&& d)
  else if i < 32 then (d &&& b) ||| ((d ^^^ 4294967295) &&& c)
  else if i < 48 then b ^^^ c ^^^ d
  else c ^^^ (b ||| (d ^^^ 4294967295))

/-- The MD5 message-word index for operation `i`. -/
def md5g (i : Nat) : Nat :=
  if i < 16 then i
  else if i < 32 then (5 * i + 1) % 16
  else if i < 48 then (3 * i + 5) % 16
  else (7 * i) % 16

/-- Little-endian 32-bit word number `g` of a 64-byte block. -/
def wordAt (block : List Nat) (g : Nat) : Nat :=
  block.getD (4 * g) 0 + 256 * block.getD (4 * g + 1) 0 +
    65536 * block.getD (4 * g + 2) 0 + 16777216 * block.getD (4 * g + 3) 0

/-- One MD5 operation on the four-word state. -/
def md5Round (block : List Nat) (st : Nat × Nat × Nat × Nat) (i : Nat) :
    Nat × Nat × Nat × Nat :=
  let a := st.1
  let b := st.2.1
  let c := st.2.2.1
  let d := st.2.2.2
  let f := (a + md5F i b c d + md5K.getD i 0 + wordAt block (md5g i)) % m32
  (d, (b + rotl32 f (md5S.getD i 0)) % m32, b, c)

/-- Process one 64-byte block: 64 operations, then add into the state. -/
def md5ProcessBlock (st : Nat × Nat × Nat × Nat) (block : List Nat) :
    Nat × Nat × Nat × Nat :=
  let r := (List.range 64).foldl (md5Round block) st
  ((st.1 + r.1) % m32, (st.2.1 + r.2.1) % m32,
   (st.2.2.1 + r.2.2.1) % m32, (st.2.2.2 + r.2.2.2) % m32)

/-- The eight little-endian bytes of the 64-bit message bit length. -/
def md5LenBytes (len : Nat) : List Nat :=
  (List.range 8).map fun i => (((8 * len) % 18446744073709551616) >>> (8 * i)) % 256

/-- MD5 padding: a 0x80 byte, zeros to 56 mod 64, the bit length. -/
def md5Pad (msg : List Nat) : List Nat :=
  let len := msg.length
  let k := (120 - ((len + 1) % 64)) % 64
  msg ++ [128] ++ List.replicate k 0 ++ md5LenBytes len

/-- Split a byte list into 64-byte chunks (fuelled). -/
def chunks64 (fuel : Nat) (l : List Nat) : List (List Nat) :=
  match fuel, l with
  | 0, _ => []
  | _, [] => []
  | f + 1, l => l.take 64 :: chunks64 f (l.drop 64)

/-- The sixteen MD5 digest bytes of a message. -/
def md5Digest (msg : List Nat) : List Nat :=
  let padded := md5Pad msg
  let st := (chunks64 padded.length padded).foldl md5ProcessBlock
    (0x67452301, 0xefcdab89, 0x98badcfe, 0x10325476)
  [st.1, st.2.1, st.2.2.1, st.2.2.2].flatMap fun w =>
    [w % 256, (w >>> 8) % 256, (w >>> 16) % 256, (w >>> 24) % 256]

/-- The digest in lowercase hexadecimal, as `hex.EncodeToString` writes it. -/
def md5Hex (msg : List Nat) : String :=
  String.mk ((md5Digest msg).flatMap fun b => [hexDigitL (b / 16), hexDigitL (b % 16)])

/-! ### The Client -/

/-- The `ShardStrategy` string constant `":crc"`. -/
def ShardStrategyCRC : String := ":crc"

/-- The `ShardStrategy` string constant `":cycle"`. -/
def ShardStrategyCycle : String := ":cycle"

/-- The Go `Client` struct.  `ShardStrategy` is a string type in the
source, so the field is a `String`; `cycleIndex` is a Go `int`. -/
structure Client where
  hosts : List String
  token : String
  secure : Bool
  shardStrategy : String
  cycleIndex : Int
deriving DecidableEq

/-- The panics the package can raise, by the spec's error taxonomy.
`UnsupportedStrategy` carries the offending strategy string of the panic
message; `IndexOutOfRange` is the Go runtime panic of an out-of-bounds
slice access. -/
inductive ImgixError where
  | UnsupportedStrategy (value : String)
  | NoHostsConfigured
  | IndexOutOfRange
deriving DecidableEq

/-- `NewClient`: the given hosts, HTTPS enabled, every other field at its
Go zero value. -/
def NewClient (hosts : List String) : Client :=
  { hosts := hosts, token := "", secure := true, shardStrategy := "", cycleIndex := 0 }

/-- `NewClientWithToken`: one host, the token, HTTPS enabled. -/
def NewClientWithToken (host token : String) : Client :=
  { hosts := [host], token := token, secure := true, shardStrategy := "", cycleIndex := 0 }

/-- Method `(c *Client) ShardStrategy()`: returns the stored strategy if
it is one of the two constants, materialises `":cycle"` if it is unset,
and panics on anything else. -/
def Client.ShardStrategy (c : Client) : Except ImgixError (String × Client) :=
  if c.shardStrategy = ShardStrategyCRC ∨ c.shardStrategy = ShardStrategyCycle then
    .ok (c.shardStrategy, c)
  else if c.shardStrategy = "" then
    .ok (ShardStrategyCycle, { c with shardStrategy := ShardStrategyCycle })
  else
    .error (.UnsupportedStrategy c.shardStrategy)

/-- Method `(c *Client) Secure()`. -/
def Client.Secure (c : Client) : Bool × Client :=
  (c.secure, c)

/-- Method `(c *Client) Hosts(index)`: panics when no hosts are
configured, otherwise the Go slice access `c.hosts[index]`, which panics
when the index is outside the slice bounds. -/
def Client.Hosts (c : Client) (index : Int) : Except ImgixError (String × Client) :=
  if c.hosts.length = 0 then .error .NoHostsConfigured
  else if h : 0 ≤ index ∧ index < (c.hosts.length : Int) then
    .ok (c.hosts.get ⟨index.toNat, by omega⟩, c)
  else .error .IndexOutOfRange

/-- Method `(c *Client) Scheme()`. -/
def Client.Scheme (c : Client) : String × Client :=
  (if (c.Secure).1 then "https" else "http", c)

/-- Method `(c *Client) crc32BasedIndexForPath(path)`:
`int(crc32.ChecksumIEEE([]byte(path))) % len(c.hosts)` (Go `int` is
64-bit, so the unsigned checksum converts to a non-negative value).
With no hosts Go raises a divide-by-zero runtime panic here; the model
returns `Int.tmod _ 0` and the `Hosts` lookup that consumes this index
then reports the empty-host-list panic, so both abort on that input and
no configured host is ever returned. -/
def Client.crc32BasedIndexForPath (c : Client) (path : String) : Int :=
  Int.tmod (Int.ofNat (crc32 (strBytes path))) (Int.ofNat c.hosts.length)

/-- Method `(c *Client) Host(path)`: resolves the strategy, selects a
host by CRC or by the cycle counter (which then advances by one modulo
the host count), and removes every `http://` or `https://` match from
the selected host. -/
def Client.Host (c : Client) (path : String) : Except ImgixError (String × Client) :=
  match c.ShardStrategy with
  | .error e => .error e
  | .ok (strat, c1) =>
    if strat = ShardStrategyCRC then
      match c1.Hosts (c1.crc32BasedIndexForPath path) with
      | .error e => .error e
      | .ok (host, c2) => .ok (stripScheme host, c2)
    else if strat = ShardStrategyCycle then
      match c1.Hosts c1.cycleIndex with
      | .error e => .error e
      | .ok (host, c2) =>
        .ok (stripScheme host,
          { c2 with cycleIndex := Int.tmod (c2.cycleIndex + 1) (Int.ofNat c2.hosts.length) })
    else
      .ok (stripScheme "", c1)

/-- Method `(c *Client) SignatureForPathAndParams(path, params)`: empty
when no token is configured, otherwise `"s="` and the hexadecimal MD5 of
the token, the path and, when parameters are present, a question mark and
their canonical encoding. -/
def Client.SignatureForPathAndParams (c : Client) (path : String) (params : Values) :
    String × Client :=
  if c.token = "" then ("", c)
  else
    let input :=
      if params.length ≠ 0 then c.token ++ path ++ ("?" ++ Encode params)
      else c.token ++ path
    ("s=" ++ md5Hex (strBytes input), c)

/-- Method `(c *Client) SignatureForPath(path)`. -/
def Client.SignatureForPath (c : Client) (path : String) : String × Client :=
  c.SignatureForPathAndParams path []

/-- Whether `strings.Index(s, "/") == 0`, that is whether the string
begins with a slash. -/
def leadingSlash (s : String) : Bool :=
  match s.data with
  | [] => false
  | ch :: _ => ch == Char.ofNat 47

/-- Method `(c *Client) PathWithParams(imgPath, params)`, the central
algorithm: scheme and sharded host, CGI escape of fully-qualified input
paths, a guaranteed leading slash, the signature over the transformed
path, the visible parameter string (canonical encoding with every plus
replaced per line 161), the signature appended last, and a question mark
only when something follows it. -/
def Client.PathWithParams (c : Client) (imgPath : String) (params : Values) :
    Except ImgixError (String × Client) :=
  match c.Host imgPath with
  | .error e => .error e
  | .ok (host, c1) =>
    let urlString := urlStringOf (c.Scheme).1 host
    let imgPath1 := if matchesHTTPAndS imgPath then cgiEscape imgPath else imgPath
    let imgPath2 := if ¬ leadingSlash imgPath1 then "/" ++ imgPath1 else imgPath1
    let urlString1 := urlString ++ imgPath2
    let signature := (c1.SignatureForPathAndParams imgPath2 params).1
    let parameterString := replacePlus (Encode params)
    let parameterString1 :=
      if signature ≠ "" ∧ params.length > 0 then parameterString ++ "&" ++ signature
      else if signature ≠ "" ∧ params.length = 0 then signature
      else parameterString
    .ok (if parameterString1 ≠ "" then urlString1 ++ "?" ++ parameterString1 else urlString1, c1)

/-- Method `(c *Client) Path(imgPath)`. -/
def Client.Path (c : Client) (imgPath : String) : Except ImgixError (String × Client) :=
  c.PathWithParams imgPath []

/-! ### Derived notions used by the statements -/

instance {ε α : Type} [DecidableEq ε] [DecidableEq α] : DecidableEq (Except ε α)
  | .error a, .error b =>
    if h : a = b then .isTrue (by rw [h]) else .isFalse (by intro hc; cases hc; exact h rfl)
  | .error _, .ok _ => .isFalse (by intro hc; cases hc)
  | .ok _, .error _ => .isFalse (by intro hc; cases hc)
  | .ok a, .ok b =>
    if h : a = b then .isTrue (by rw [h]) else .isFalse (by intro hc; cases hc; exact h rfl)

/-- The path actually embedded in the URL by `PathWithParams`: the input,
CGI-escaped when the scheme pattern matches it, with a leading slash
ensured. -/
def transformedPath (p : String) : String :=
  let p1 := if matchesHTTPAndS p then cgiEscape p else p
  if ¬ leadingSlash p1 then "/" ++ p1 else p1

/-- A sequence of `Host` calls, returning the hosts in call order
together with the final client state. -/
def hostCalls : Client → List String → Except ImgixError (List String × Client)
  | c, [] => .ok ([], c)
  | c, p :: ps =>
    match c.Host p with
    | .error e => .error e
    | .ok (h, c1) =>
      match hostCalls c1 ps with
      | .error e => .error e
      | .ok (hs, c2) => .ok (h :: hs, c2)

/-- The fields no public operation may change (claim C10). -/
def framePreserved (c c' : Client) : Prop :=
  c'.hosts = c.hosts ∧ c'.token = c.token ∧ c'.secure = c.secure

/-- The only change the stored strategy may undergo: staying put, or the
lazy resolution of the unset value to `":cycle"`. -/
def strategyEvolution (c c' : Client) : Prop :=
  c'.shardStrategy = c.shardStrategy ∨
    (c.shardStrategy = "" ∧ c'.shardStrategy = ShardStrategyCycle)

/-- The only change the cycle counter may undergo: staying put, or one
round-robin advance modulo the host count. -/
def cycleEvolution (c c' : Client) : Prop :=
  c'.cycleIndex = c.cycleIndex ∨
    c'.cycleIndex = Int.tmod (c.cycleIndex + 1) (Int.ofNat c.hosts.length)

/-- The three-host client of the repository's test suite. -/
def testClient : Client :=
  NewClient ["prod.imgix.net", "stag.imgix.net", "dev.imgix.net"]

/-- The token-bearing client of the repository's test suite. -/
def testClientWithToken : Client :=
  NewClientWithToken "my-social-network.imgix.net" "FOO123bar"

/-- A client whose only host is configured with an explicit scheme. -/
def schemedHostClient : Client :=
  { hosts := ["http://a.com"], token := "", secure := true,
    shardStrategy := ShardStrategyCycle, cycleIndex := 0 }

/-- A client whose only host contains the scheme pattern away from the
front of the string. -/
def midSchemeHostClient : Client :=
  { hosts := ["a-http://b.com"], token := "", secure := true,
    shardStrategy := ShardStrategyCRC, cycleIndex := 0 }

/-- The three test hosts under the cycle strategy, counter at zero. -/
def cycleTestClient : Client :=
  { hosts := ["prod.imgix.net", "stag.imgix.net", "dev.imgix.net"], token := "",
    secure := true, shardStrategy := ShardStrategyCycle, cycleIndex := 0 }

/-- The three test hosts under the CRC strategy. -/
def crcTestClient : Client :=
  { hosts := ["prod.imgix.net", "stag.imgix.net", "dev.imgix.net"], token := "",
    secure := true, shardStrategy := ShardStrategyCRC, cycleIndex := 0 }

/-- The test client after its first lazy strategy resolution. -/
def resolvedTestClient : Client :=
  { testClient with shardStrategy := ShardStrategyCycle }

/-- The test client after one resolved cycle call: strategy materialised,
counter advanced to one. -/
def cycledTestClient : Client :=
  { testClient with shardStrategy := ShardStrategyCycle, cycleIndex := 1 }

/-- The token client after one resolved cycle call; with a single host
the counter wraps back to zero. -/
def resolvedTokenClient : Client :=
  { testClientWithToken with shardStrategy := ShardStrategyCycle }

/-! ## Lemmas -/

theorem strMk_append (a b : List Char) : String.mk a ++ String.mk b = String.mk (a ++ b) :=
  rfl

theorem replacePlus_append (a b : String) :
    replacePlus (a ++ b) = replacePlus a ++ replacePlus b := by
  cases a with
  | mk la =>
    cases b with
    | mk lb =>
      show String.mk ((la ++ lb).flatMap replacePlusChar) =
        String.mk (la.flatMap replacePlusChar) ++ String.mk (lb.flatMap replacePlusChar)
      rw [strMk_append, List.flatMap_append]

theorem joinAmp_replacePlus (l : List String) :
    replacePlus (joinAmp l) = joinAmp (l.map replacePlus) := by
  induction l with
  | nil => rfl
  | cons x xs ih =>
    cases xs with
    | nil => rfl
    | cons y ys =>
      show replacePlus (x ++ "&" ++ joinAmp (y :: ys)) = _
      rw [replacePlus_append, replacePlus_append, ih]
      rfl

theorem flatMap_id_of_no_plus (l : List Char) (h : ∀ c ∈ l, c ≠ Char.ofNat 43) :
    l.flatMap replacePlusChar = l := by
  induction l with
  | nil => rfl
  | cons c cs ih =>
    rw [List.flatMap_cons, ih (fun d hd => h d (List.mem_cons_of_mem c hd))]
    have hc : c ≠ Char.ofNat 43 := h c (List.mem_cons_self c cs)
    simp only [replacePlusChar, beq_iff_eq, if_neg hc]
    rfl

theorem replacePlus_of_no_plus (s : String) (h : Char.ofNat 43 ∉ s.data) :
    replacePlus s = s := by
  cases s with
  | mk l =>
    show String.mk (l.flatMap replacePlusChar) = String.mk l
    rw [flatMap_id_of_no_plus l (fun c hc hce => h (hce ▸ hc))]

theorem lexLe_total : ∀ a b : List Nat, lexLe a b = true ∨ lexLe b a = true := by
  intro a
  induction a with
  | nil => intro b; left; rfl
  | cons x xs ih =>
    intro b
    cases b with
    | nil => right; rfl
    | cons y ys =>
      simp only [lexLe]
      rcases Nat.lt_trichotomy x y with h | h | h
      · left
        rw [if_pos h]
      · subst h
        simp only [if_neg (Nat.lt_irrefl x)]
        exact ih ys
      · right
        rw [if_pos h]

theorem lexLe_trans : ∀ a b c : List Nat,
    lexLe a b = true → lexLe b c = true → lexLe a c = true := by
  intro a
  induction a with
  | nil => intro b c _ _; rfl
  | cons x xs ih =>
    intro b c hab hbc
    cases b with
    | nil => exact absurd hab (by simp [lexLe])
    | cons y ys =>
      cases c with
      | nil => exact absurd hbc (by simp [lexLe])
      | cons z zs =>
        simp only [lexLe] at hab hbc ⊢
        rcases Nat.lt_trichotomy x y with hxy | hxy | hxy
        · rcases Nat.lt_trichotomy y z with hyz | hyz | hyz
          · rw [if_pos (Nat.lt_trans hxy hyz)]
          · subst hyz; rw [if_pos hxy]
          · rw [if_neg (Nat.lt_asymm hyz), if_pos hyz] at hbc
            exact absurd hbc (by simp)
        · subst hxy
          rw [if_neg (Nat.lt_irrefl x), if_neg (Nat.lt_irrefl x)] at hab
          rcases Nat.lt_trichotomy x z with hyz | hyz | hyz
          · rw [if_pos hyz]
          · subst hyz
            rw [if_neg (Nat.lt_irrefl x), if_neg (Nat.lt_irrefl x)] at hbc ⊢
            exact ih ys zs hab hbc
          · rw [if_neg (Nat.lt_asymm hyz), if_pos hyz] at hbc
            exact absurd hbc (by simp)
        · rw [if_neg (Nat.lt_asymm hxy), if_pos hxy] at hab
          exact absurd hab (by simp)

instance : IsTotal (String × List String) keyLE :=
  ⟨fun a b => lexLe_total (strBytes a.1) (strBytes b.1)⟩

instance : IsTrans (String × List String) keyLE :=
  ⟨fun a b c hab hbc => lexLe_trans (strBytes a.1) (strBytes b.1) (strBytes c.1) hab hbc⟩

theorem sortedParams_sorted (ps : Values) : List.Sorted keyLE (sortedParams ps) :=
  List.sorted_insertionSort keyLE ps

theorem client_eta (c : Client) (x : Int) (h : c.cycleIndex = x) :
    ({ c with cycleIndex := x } : Client) = c := by
  cases c
  simp only at h
  rw [h]

theorem ShardStrategy_of_crc (c : Client) (h : c.shardStrategy = ShardStrategyCRC) :
    c.ShardStrategy = .ok (c.shardStrategy, c) := by
  unfold Client.ShardStrategy
  rw [if_pos (Or.inl h)]

theorem ShardStrategy_of_cycle (c : Client) (h : c.shardStrategy = ShardStrategyCycle) :
    c.ShardStrategy = .ok (c.shardStrategy, c) := by
  unfold Client.ShardStrategy
  rw [if_pos (Or.inr h)]

theorem ShardStrategy_of_unset (c : Client) (h : c.shardStrategy = "") :
    c.ShardStrategy = .ok (ShardStrategyCycle, { c with shardStrategy := ShardStrategyCycle }) := by
  unfold Client.ShardStrategy
  rw [if_neg (by rw [h]; decide), if_pos h]

theorem ShardStrategy_of_bad (c : Client) (h1 : c.shardStrategy ≠ ShardStrategyCRC)
    (h2 : c.shardStrategy ≠ ShardStrategyCycle) (h3 : c.shardStrategy ≠ "") :
    c.ShardStrategy = .error (.UnsupportedStrategy c.shardStrategy) := by
  unfold Client.ShardStrategy
  rw [if_neg (by tauto), if_neg h3]

theorem tmod_coe_succ (j n : Nat) :
    Int.tmod ((j : Int) + 1) (Int.ofNat n) = Int.ofNat ((j + 1) % n) :=
  rfl

theorem drop_eq_get_cons {α : Type} (l : List α) (j : Nat) (hj : j < l.length) :
    l.drop j = l.get ⟨j, hj⟩ :: l.drop (j + 1) := by
  rw [List.drop_eq_getElem_cons hj, List.get_eq_getElem]

theorem Hosts_of_lt (c : Client) (j : Nat) (hj : j < c.hosts.length) :
    c.Hosts (j : Int) = .ok (c.hosts.get ⟨j, hj⟩, c) := by
  unfold Client.Hosts
  rw [if_neg (by omega)]
  rw [dif_pos (show 0 ≤ (j : Int) ∧ (j : Int) < (c.hosts.length : Int) by
    constructor <;> omega)]
  exact rfl

theorem Host_cycle_step (c : Client) (hstrat : c.shardStrategy = ShardStrategyCycle)
    (j : Nat) (hidx : c.cycleIndex = (j : Int)) (hj : j < c.hosts.length) (p : String) :
    c.Host p = .ok (stripScheme (c.hosts.get ⟨j, hj⟩),
      { c with cycleIndex := Int.ofNat ((j + 1) % c.hosts.length) }) := by
  unfold Client.Host
  rw [ShardStrategy_of_cycle c hstrat, hstrat]
  show (if ShardStrategyCycle = ShardStrategyCRC then _ else _) = _
  rw [if_neg (by decide), if_pos rfl, hidx, Hosts_of_lt c j hj]
  show Except.ok (stripScheme (c.hosts.get ⟨j, hj⟩),
    { c with cycleIndex := Int.tmod (c.cycleIndex + 1) (Int.ofNat c.hosts.length) }) = _
  rw [hidx, tmod_coe_succ, hstrat]

theorem Host_crc (c : Client) (hstrat : c.shardStrategy = ShardStrategyCRC)
    (hpos : 0 < c.hosts.length) (p : String) :
    c.Host p = .ok (stripScheme
      (c.hosts.get ⟨crc32 (strBytes p) % c.hosts.length, Nat.mod_lt _ hpos⟩), c) := by
  unfold Client.Host
  rw [ShardStrategy_of_crc c hstrat, hstrat]
  show (if ShardStrategyCRC = ShardStrategyCRC then _ else _) = _
  rw [if_pos rfl]
  show (match c.Hosts (c.crc32BasedIndexForPath p) with
    | .error e => Except.error e
    | .ok (host, c2) => .ok (stripScheme host, c2)) = _
  rw [show c.crc32BasedIndexForPath p =
    ((crc32 (strBytes p) % c.hosts.length : Nat) : Int) from rfl]
  rw [Hosts_of_lt c _ (Nat.mod_lt _ hpos)]

theorem cycleRunAux : ∀ (paths : List String) (c : Client) (j : Nat),
    c.shardStrategy = ShardStrategyCycle → j < c.hosts.length →
    c.cycleIndex = (j : Int) → paths.length + j = c.hosts.length →
    hostCalls c paths = .ok ((c.hosts.drop j).map stripScheme,
      { c with cycleIndex := Int.ofNat 0 }) := by
  intro paths
  induction paths with
  | nil => intro c j _ hj _ hlen; simp only [List.length_nil] at hlen; omega
  | cons p ps ih =>
    intro c j hstrat hj hidx hlen
    show (match c.Host p with
      | .error e => Except.error e
      | .ok (h, c1) =>
        match hostCalls c1 ps with
        | .error e => Except.error e
        | .ok (hs, c2) => .ok (h :: hs, c2)) = _
    rw [Host_cycle_step c hstrat j hidx hj p]
    simp only [List.length_cons] at hlen
    rw [drop_eq_get_cons c.hosts j hj, List.map_cons]
    by_cases hend : j + 1 = c.hosts.length
    · have hps : ps = [] := by
        cases ps with
        | nil => rfl
        | cons q qs => simp only [List.length_cons] at hlen; omega
      subst hps
      have hmod : (j + 1) % c.hosts.length = 0 := by rw [hend]; exact Nat.mod_self _
      rw [hmod, hend, List.drop_length, List.map_nil]
      rfl
    · have hlt : j + 1 < c.hosts.length := by omega
      have hmod : (j + 1) % c.hosts.length = j + 1 := Nat.mod_eq_of_lt hlt
      rw [hmod]
      show (match hostCalls { c with cycleIndex := Int.ofNat (j + 1) } ps with
        | .error e => Except.error e
        | .ok (hs, c2) => Except.ok (stripScheme (c.hosts.get ⟨j, hj⟩) :: hs, c2)) = _
      rw [ih { c with cycleIndex := Int.ofNat (j + 1) } (j + 1) hstrat hlt rfl
        (by show ps.length + (j + 1) = c.hosts.length; omega)]

end Imgix

namespace Imgix

/-! ## Claim C8: strategy resolution -/

/-- C8: `ShardStrategy()` returns the stored strategy unchanged when it is
cycle or crc; when it is unset it stores cycle and returns it, and a later
call on the updated client returns cycle again; for any other stored value
it fails with an `UnsupportedStrategy` error carrying the invalid value. -/
theorem claim_C8_shardStrategy (c : Client) :
    (c.shardStrategy = ShardStrategyCycle ∨ c.shardStrategy = ShardStrategyCRC →
      c.ShardStrategy = .ok (c.shardStrategy, c)) ∧
    (c.shardStrategy = "" →
      c.ShardStrategy = .ok (ShardStrategyCycle, { c with shardStrategy := ShardStrategyCycle }) ∧
      ({ c with shardStrategy := ShardStrategyCycle } : Client).ShardStrategy =
        .ok (ShardStrategyCycle, { c with shardStrategy := ShardStrategyCycle })) ∧
    (c.shardStrategy ≠ ShardStrategyCycle → c.shardStrategy ≠ ShardStrategyCRC →
      c.shardStrategy ≠ "" →
      c.ShardStrategy = .error (ImgixError.UnsupportedStrategy c.shardStrategy)) := by
  refine ⟨?_, ?_, ?_⟩
  · intro h
    rcases h with h | h
    · exact ShardStrategy_of_cycle c h
    · exact ShardStrategy_of_crc c h
  · intro h
    refine ⟨ShardStrategy_of_unset c h, ?_⟩
    exact ShardStrategy_of_cycle _ rfl
  · intro h1 h2 h3
    exact ShardStrategy_of_bad c h2 h1 h3

/-- Witness for C8 at the unset test client: the first resolution stores
and returns cycle. -/
theorem claim_C8_witness :
    testClient.ShardStrategy =
      .ok (ShardStrategyCycle, { testClient with shardStrategy := ShardStrategyCycle }) :=
  ((claim_C8_shardStrategy testClient).2.1 rfl).1

/-! ## Claim C6: round-robin cycling -/

/-- C6 (amended): under the cycle strategy with the counter at zero and
N configured hosts, N consecutive `Host` calls (any paths) return, in
configured order, each configured host with every `http://` or `https://`
occurrence removed — the configured host strings themselves whenever that
removal leaves them unchanged — the client comes back to its initial
state, and the next call returns the first host (removal applied) again. -/
theorem claim_C6_cycle_round_robin (c : Client)
    (hstrat : c.shardStrategy = ShardStrategyCycle) (hidx : c.cycleIndex = 0)
    (hpos : 0 < c.hosts.length) (paths : List String)
    (hlen : paths.length = c.hosts.length) (p : String) :
    hostCalls c paths = .ok (c.hosts.map stripScheme, c) ∧
    ∃ c2, c.Host p = .ok (stripScheme (c.hosts.get ⟨0, hpos⟩), c2) := by
  have h0 : c.cycleIndex = ((0 : Nat) : Int) := by rw [hidx]; rfl
  have hrun := cycleRunAux paths c 0 hstrat hpos h0 (by omega)
  rw [List.drop_zero] at hrun
  rw [client_eta c (Int.ofNat 0) (by rw [hidx]; rfl)] at hrun
  exact ⟨hrun, ⟨_, Host_cycle_step c hstrat 0 h0 hpos p⟩⟩

/-- Witness for C6: three cycle calls on the three test hosts visit them
in order and restore the initial state. -/
theorem claim_C6_witness :
    hostCalls cycleTestClient ["/a", "/b", "/c"] =
      .ok (cycleTestClient.hosts.map stripScheme, cycleTestClient) :=
  (claim_C6_cycle_round_robin cycleTestClient rfl rfl (by decide)
    ["/a", "/b", "/c"] rfl "/d").1

/-- C6 counterexample: with a host configured as `http://a.com`, the call
returns `a.com`, not the configured host string, refuting the claim that
the N calls return the configured hosts. -/
theorem claim_C6_counterexample :
    schemedHostClient.hosts = ["http://a.com"] ∧
    schemedHostClient.cycleIndex = 0 ∧
    schemedHostClient.shardStrategy = ShardStrategyCycle ∧
    (schemedHostClient.Host "/x").map Prod.fst = .ok "a.com" ∧
    "a.com" ≠ "http://a.com" := by
  decide

/-! ## Claim C7: CRC host selection -/

/-- C7 (amended): under the CRC strategy with hosts configured, `Host`
returns the host at index `crc32(path) mod len(hosts)` with every
`http://` or `https://` occurrence removed (not only a leading prefix),
leaves the client unchanged, and a repeated call with the same path
returns the same host. -/
theorem claim_C7_crc_host (c : Client) (hstrat : c.shardStrategy = ShardStrategyCRC)
    (hpos : 0 < c.hosts.length) (p : String) :
    c.Host p = .ok (stripScheme
      (c.hosts.get ⟨crc32 (strBytes p) % c.hosts.length, Nat.mod_lt _ hpos⟩), c) ∧
    hostCalls c [p, p] = .ok
      ([stripScheme (c.hosts.get ⟨crc32 (strBytes p) % c.hosts.length, Nat.mod_lt _ hpos⟩),
        stripScheme (c.hosts.get ⟨crc32 (strBytes p) % c.hosts.length, Nat.mod_lt _ hpos⟩)],
        c) := by
  have h := Host_crc c hstrat hpos p
  refine ⟨h, ?_⟩
  simp only [hostCalls, h]

/-- Witness for C7 at the CRC test client and the test path. -/
theorem claim_C7_witness :
    crcTestClient.Host "/1/users.jpg" = .ok (stripScheme (crcTestClient.hosts.get
      ⟨crc32 (strBytes "/1/users.jpg") % crcTestClient.hosts.length,
        Nat.mod_lt _ (by decide)⟩), crcTestClient) :=
  (claim_C7_crc_host crcTestClient rfl (by decide) "/1/users.jpg").1

/-- C7 counterexample: the scheme pattern is removed wherever it occurs,
not only as a prefix: the host `a-http://b.com` has no `http://` prefix,
yet the call returns `a-b.com`. -/
theorem claim_C7_counterexample :
    midSchemeHostClient.hosts = ["a-http://b.com"] ∧
    midSchemeHostClient.shardStrategy = ShardStrategyCRC ∧
    midSchemeHostClient.Host "/x" = .ok ("a-b.com", midSchemeHostClient) ∧
    "a-b.com" ≠ "a-http://b.com" := by
  decide

end Imgix

namespace Imgix

/-! ## Elimination lemmas for successful calls -/

theorem tmod_succ_bounds (i : Int) (n : Nat) (h0 : 0 ≤ i) (hn : 0 < n) :
    0 ≤ Int.tmod (i + 1) (Int.ofNat n) ∧ Int.tmod (i + 1) (Int.ofNat n) < (n : Int) := by
  rw [show (Int.ofNat n) = (n : Int) from rfl]
  rw [Int.tmod_eq_emod (by omega) (by omega)]
  constructor
  · exact Int.emod_nonneg _ (by omega)
  · exact Int.emod_lt_of_pos _ (by omega)

theorem ShardStrategy_ok_elim (c : Client) (r : String) (c' : Client)
    (h : c.ShardStrategy = .ok (r, c')) :
    c'.hosts = c.hosts ∧ c'.token = c.token ∧ c'.secure = c.secure ∧
    c'.cycleIndex = c.cycleIndex ∧ r = c'.shardStrategy ∧
    (r = ShardStrategyCRC ∨ r = ShardStrategyCycle) ∧
    (c' = c ∨ (c.shardStrategy = "" ∧ c' = { c with shardStrategy := ShardStrategyCycle })) := by
  unfold Client.ShardStrategy at h
  by_cases h1 : c.shardStrategy = ShardStrategyCRC ∨ c.shardStrategy = ShardStrategyCycle
  · rw [if_pos h1] at h
    injection h with h
    injection h with hr hc
    subst hr
    subst hc
    exact ⟨rfl, rfl, rfl, rfl, rfl, h1, Or.inl rfl⟩
  · rw [if_neg h1] at h
    by_cases h2 : c.shardStrategy = ""
    · rw [if_pos h2] at h
      injection h with h
      injection h with hr hc
      subst hr
      subst hc
      exact ⟨rfl, rfl, rfl, rfl, rfl, Or.inr rfl, Or.inr ⟨h2, rfl⟩⟩
    · rw [if_neg h2] at h
      exact Except.noConfusion h

theorem Hosts_ok_elim (c : Client) (i : Int) (r : String) (c' : Client)
    (h : c.Hosts i = .ok (r, c')) : c' = c := by
  unfold Client.Hosts at h
  by_cases h1 : c.hosts.length = 0
  · rw [if_pos h1] at h
    exact Except.noConfusion h
  · rw [if_neg h1] at h
    by_cases h2 : 0 ≤ i ∧ i < (c.hosts.length : Int)
    · rw [dif_pos h2] at h
      injection h with h
      injection h with _ hc
      exact hc.symm
    · rw [dif_neg h2] at h
      exact Except.noConfusion h

theorem Host_unfold_ok (c : Client) (p strat : String) (c1 : Client)
    (hSS : c.ShardStrategy = .ok (strat, c1)) :
    c.Host p =
      if strat = ShardStrategyCRC then
        match c1.Hosts (c1.crc32BasedIndexForPath p) with
        | .error e => .error e
        | .ok (host, c2) => .ok (stripScheme host, c2)
      else if strat = ShardStrategyCycle then
        match c1.Hosts c1.cycleIndex with
        | .error e => .error e
        | .ok (host, c2) =>
          .ok (stripScheme host,
            { c2 with cycleIndex := Int.tmod (c2.cycleIndex + 1) (Int.ofNat c2.hosts.length) })
      else .ok (stripScheme "", c1) := by
  unfold Client.Host
  rw [hSS]

theorem Host_ok_elim (c : Client) (p r : String) (c' : Client)
    (h : c.Host p = .ok (r, c')) :
    framePreserved c c' ∧ strategyEvolution c c' ∧ cycleEvolution c c' := by
  rcases hSS : c.ShardStrategy with e | sc
  · rw [Client.Host, hSS] at h
    exact Except.noConfusion h
  · obtain ⟨strat, c1⟩ := sc
    obtain ⟨hh, ht, hs, hi, hr, hstrat2, hcase⟩ := ShardStrategy_ok_elim c strat c1 hSS
    have hse : strategyEvolution c c1 := by
      rcases hcase with hc | ⟨hun, hc⟩
      · subst hc
        exact Or.inl rfl
      · subst hc
        exact Or.inr ⟨hun, rfl⟩
    by_cases h1 : strat = ShardStrategyCRC
    · rcases hHo : c1.Hosts (c1.crc32BasedIndexForPath p) with e | hc2
      · have hval : c.Host p = .error e := by
          rw [Host_unfold_ok c p strat c1 hSS, if_pos h1, hHo]
        rw [hval] at h
        exact Except.noConfusion h
      · obtain ⟨host, c2⟩ := hc2
        have hc2c1 : c2 = c1 := Hosts_ok_elim c1 _ host c2 hHo
        subst hc2c1
        have hval : c.Host p = .ok (stripScheme host, c2) := by
          rw [Host_unfold_ok c p strat c2 hSS, if_pos h1, hHo]
        rw [hval] at h
        injection h with h
        injection h with _ hc
        subst hc
        exact ⟨⟨hh, ht, hs⟩, hse, Or.inl hi⟩
    · by_cases h2 : strat = ShardStrategyCycle
      · rcases hHo : c1.Hosts c1.cycleIndex with e | hc2
        · have hval : c.Host p = .error e := by
            rw [Host_unfold_ok c p strat c1 hSS, if_neg h1, if_pos h2, hHo]
          rw [hval] at h
          exact Except.noConfusion h
        · obtain ⟨host, c2⟩ := hc2
          have hc2c1 : c2 = c1 := Hosts_ok_elim c1 _ host c2 hHo
          subst hc2c1
          have hval : c.Host p = .ok (stripScheme host,
              { c2 with cycleIndex := Int.tmod (c2.cycleIndex + 1) (Int.ofNat c2.hosts.length) }) := by
            rw [Host_unfold_ok c p strat c2 hSS, if_neg h1, if_pos h2, hHo]
          rw [hval] at h
          injection h with h
          injection h with _ hc
          subst hc
          refine ⟨⟨hh, ht, hs⟩, hse, Or.inr ?_⟩
          show Int.tmod (c2.cycleIndex + 1) (Int.ofNat c2.hosts.length) =
            Int.tmod (c.cycleIndex + 1) (Int.ofNat c.hosts.length)
          rw [hi, hh]
      · rcases hstrat2 with hx | hx
        · exact absurd hx h1
        · exact absurd hx h2

theorem Signature_state (c : Client) (p : String) (ps : Values) :
    (c.SignatureForPathAndParams p ps).2 = c := by
  unfold Client.SignatureForPathAndParams
  by_cases h : c.token = ""
  · rw [if_pos h]
  · rw [if_neg h]

theorem PathWithParams_ok_elim (c : Client) (p : String) (ps : Values)
    (u : String) (c' : Client) (h : c.PathWithParams p ps = .ok (u, c')) :
    ∃ host, c.Host p = .ok (host, c') := by
  unfold Client.PathWithParams at h
  rcases hHo : c.Host p with e | hc1
  · rw [hHo] at h
    exact Except.noConfusion h
  · obtain ⟨host, c1⟩ := hc1
    rw [hHo] at h
    injection h with h
    injection h with _ hc
    subst hc
    exact ⟨host, rfl⟩

end Imgix

namespace Imgix

/-! ## Claim C9: the cycle-counter invariant -/

/-- C9: with hosts configured and the counter in `[0, len(hosts))`, every
public operation that returns leaves the counter in `[0, len(hosts))`.
`Scheme`, `Secure`, `Hosts`, `SignatureForPath` and
`SignatureForPathAndParams` return the receiver unchanged, so the
invariant carries over verbatim; `ShardStrategy`, `Host`, `Path` and
`PathWithParams` are covered through their resulting state. -/
theorem claim_C9_cycleIndex_invariant (c : Client) (hne : c.hosts ≠ [])
    (h0 : 0 ≤ c.cycleIndex) (hlt : c.cycleIndex < (c.hosts.length : Int)) :
    (∀ r c', c.ShardStrategy = .ok (r, c') →
      0 ≤ c'.cycleIndex ∧ c'.cycleIndex < (c'.hosts.length : Int)) ∧
    (∀ p r c', c.Host p = .ok (r, c') →
      0 ≤ c'.cycleIndex ∧ c'.cycleIndex < (c'.hosts.length : Int)) ∧
    (∀ p r c', c.Path p = .ok (r, c') →
      0 ≤ c'.cycleIndex ∧ c'.cycleIndex < (c'.hosts.length : Int)) ∧
    (∀ p ps r c', c.PathWithParams p ps = .ok (r, c') →
      0 ≤ c'.cycleIndex ∧ c'.cycleIndex < (c'.hosts.length : Int)) ∧
    ((c.Scheme).2 = c ∧ (c.Secure).2 = c) ∧
    (∀ i r c', c.Hosts i = .ok (r, c') → c' = c) ∧
    (∀ p, (c.SignatureForPath p).2 = c) ∧
    (∀ p ps, (c.SignatureForPathAndParams p ps).2 = c) := by
  have hpos : 0 < c.hosts.length := List.length_pos.mpr hne
  have hhost : ∀ p r c', c.Host p = .ok (r, c') →
      0 ≤ c'.cycleIndex ∧ c'.cycleIndex < (c'.hosts.length : Int) := by
    intro p r c' h
    obtain ⟨⟨hh, _, _⟩, _, hcyc⟩ := Host_ok_elim c p r c' h
    rw [hh]
    rcases hcyc with hc | hc
    · rw [hc]
      exact ⟨h0, hlt⟩
    · rw [hc]
      exact tmod_succ_bounds c.cycleIndex c.hosts.length h0 hpos
  refine ⟨?_, hhost, ?_, ?_, ⟨rfl, rfl⟩, ?_, ?_, ?_⟩
  · intro r c' h
    obtain ⟨hh, _, _, hi, _, _, _⟩ := ShardStrategy_ok_elim c r c' h
    rw [hh, hi]
    exact ⟨h0, hlt⟩
  · intro p r c' h
    obtain ⟨host, hHo⟩ := PathWithParams_ok_elim c p [] r c' h
    exact hhost p host c' hHo
  · intro p ps r c' h
    obtain ⟨host, hHo⟩ := PathWithParams_ok_elim c p ps r c' h
    exact hhost p host c' hHo
  · intro i r c' h
    exact Hosts_ok_elim c i r c' h
  · intro p
    exact Signature_state c p []
  · intro p ps
    exact Signature_state c p ps

/-- Witness for C9: the strategy resolution on the test client leaves the
counter at zero, inside the bound. -/
theorem claim_C9_witness :
    0 ≤ resolvedTestClient.cycleIndex ∧
    resolvedTestClient.cycleIndex < (resolvedTestClient.hosts.length : Int) :=
  (claim_C9_cycleIndex_invariant testClient (by decide) (by decide) (by decide)).1
    ShardStrategyCycle resolvedTestClient rfl

/-! ## Claim C10: the frame of every public operation -/

/-- C10: every public operation keeps the host list, the token and the
secure flag; the stored strategy moves only from unset to cycle; the
cycle counter moves only by one round-robin advance modulo the host
count (and only `Host`, and through it `Path` and `PathWithParams`,
moves it).  The operations embedded without state change (`Scheme`,
`Secure`, `Hosts`, the signature operations) return the receiver
unchanged. -/
theorem claim_C10_frame (c : Client) :
    (∀ r c', c.ShardStrategy = .ok (r, c') →
      framePreserved c c' ∧ strategyEvolution c c' ∧ c'.cycleIndex = c.cycleIndex) ∧
    (∀ p r c', c.Host p = .ok (r, c') →
      framePreserved c c' ∧ strategyEvolution c c' ∧ cycleEvolution c c') ∧
    (∀ p r c', c.Path p = .ok (r, c') →
      framePreserved c c' ∧ strategyEvolution c c' ∧ cycleEvolution c c') ∧
    (∀ p ps r c', c.PathWithParams p ps = .ok (r, c') →
      framePreserved c c' ∧ strategyEvolution c c' ∧ cycleEvolution c c') ∧
    ((c.Scheme).2 = c ∧ (c.Secure).2 = c) ∧
    (∀ i r c', c.Hosts i = .ok (r, c') → c' = c) ∧
    (∀ p, (c.SignatureForPath p).2 = c) ∧
    (∀ p ps, (c.SignatureForPathAndParams p ps).2 = c) := by
  refine ⟨?_, ?_, ?_, ?_, ⟨rfl, rfl⟩, ?_, ?_, ?_⟩
  · intro r c' h
    obtain ⟨hh, ht, hs, hi, _, _, _⟩ := ShardStrategy_ok_elim c r c' h
    have hse : strategyEvolution c c' := by
      obtain ⟨_, _, _, _, _, _, hcase⟩ := ShardStrategy_ok_elim c r c' h
      rcases hcase with hc | ⟨hun, hc⟩
      · subst hc
        exact Or.inl rfl
      · subst hc
        exact Or.inr ⟨hun, rfl⟩
    exact ⟨⟨hh, ht, hs⟩, hse, hi⟩
  · intro p r c' h
    exact Host_ok_elim c p r c' h
  · intro p r c' h
    obtain ⟨host, hHo⟩ := PathWithParams_ok_elim c p [] r c' h
    exact Host_ok_elim c p host c' hHo
  · intro p ps r c' h
    obtain ⟨host, hHo⟩ := PathWithParams_ok_elim c p ps r c' h
    exact Host_ok_elim c p host c' hHo
  · intro i r c' h
    exact Hosts_ok_elim c i r c' h
  · intro p
    exact Signature_state c p []
  · intro p ps
    exact Signature_state c p ps

/-- Witness for C10: the strategy resolution on the test client keeps the
hosts, the token, the secure flag and the counter, moving only the unset
strategy to cycle. -/
theorem claim_C10_witness :
    framePreserved testClient resolvedTestClient ∧
    strategyEvolution testClient resolvedTestClient ∧
    resolvedTestClient.cycleIndex = testClient.cycleIndex :=
  (claim_C10_frame testClient).1 ShardStrategyCycle resolvedTestClient rfl

end Imgix

namespace Imgix

/-! ## The shape of a successful `PathWithParams` call -/

theorem length_ne_zero_of_ne_nil {α : Type} (l : List α) (h : l ≠ []) : l.length ≠ 0 := by
  intro h0
  exact h (List.length_eq_zero.mp h0)

theorem sig_append_ne (x : String) : "s=" ++ x ≠ "" := by
  intro h
  have hl := congrArg String.length h
  rw [String.length_append] at hl
  have h2 : ("s=" : String).length = 2 := rfl
  have h0 : ("" : String).length = 0 := rfl
  omega

theorem append_amp_ne (a s : String) : a ++ "&" ++ s ≠ "" := by
  intro h
  have hl := congrArg String.length h
  rw [String.length_append, String.length_append] at hl
  have h1 : ("&" : String).length = 1 := rfl
  have h0 : ("" : String).length = 0 := rfl
  omega

theorem Signature_of_no_token (c : Client) (path : String) (ps : Values)
    (htok : c.token = "") : c.SignatureForPathAndParams path ps = ("", c) := by
  unfold Client.SignatureForPathAndParams
  rw [if_pos htok]

theorem Signature_of_token (c : Client) (path : String) (ps : Values)
    (htok : c.token ≠ "") (hps : ps.length ≠ 0) :
    (c.SignatureForPathAndParams path ps).1 =
      "s=" ++ md5Hex (strBytes (c.token ++ path ++ ("?" ++ Encode ps))) := by
  unfold Client.SignatureForPathAndParams
  rw [if_neg htok]
  show ("s=" ++ md5Hex (strBytes
    (if ps.length ≠ 0 then c.token ++ path ++ ("?" ++ Encode ps) else c.token ++ path))) = _
  rw [if_pos hps]

theorem PathWithParams_ok_shape (c : Client) (p : String) (ps : Values)
    (u : String) (c' : Client) (h : c.PathWithParams p ps = .ok (u, c')) :
    ∃ host sig qstr, c.Host p = .ok (host, c') ∧
      sig = (c'.SignatureForPathAndParams (transformedPath p) ps).1 ∧
      qstr = (if sig ≠ "" ∧ ps.length > 0 then replacePlus (Encode ps) ++ "&" ++ sig
              else if sig ≠ "" ∧ ps.length = 0 then sig
              else replacePlus (Encode ps)) ∧
      u = (if qstr ≠ "" then urlStringOf (c.Scheme).1 host ++ transformedPath p ++ "?" ++ qstr
           else urlStringOf (c.Scheme).1 host ++ transformedPath p) := by
  unfold Client.PathWithParams at h
  rcases hHo : c.Host p with e | hc1
  · rw [hHo] at h
    exact Except.noConfusion h
  · obtain ⟨host, c1⟩ := hc1
    rw [hHo] at h
    injection h with h
    injection h with hu hc
    subst hc
    exact ⟨host, _, _, rfl, rfl, rfl, hu.symm⟩

end Imgix

namespace Imgix

/-! ## Claim C4: sorted user parameters, signature last -/

/-- C4: with a token and non-empty parameters, the returned URL consists
of the base, the transformed path, a question mark, the user parameters
encoded in the `Encode` key order — which is sorted — and the signature
`s=` with the hexadecimal digest as the final query parameter after all
of them. -/
theorem claim_C4_sorted_params_sig_last (c : Client) (p : String) (ps : Values)
    (u : String) (c' : Client) (htok : c.token ≠ "") (hps : ps ≠ [])
    (hok : c.PathWithParams p ps = .ok (u, c')) :
    List.Sorted keyLE (sortedParams ps) ∧
    ∃ host, c.Host p = .ok (host, c') ∧
      u = urlStringOf (c.Scheme).1 host ++ transformedPath p ++ "?" ++
        (joinAmp ((encodePieces ps).map replacePlus) ++ "&" ++
          ("s=" ++ md5Hex (strBytes (c.token ++ transformedPath p ++ ("?" ++ Encode ps))))) := by
  obtain ⟨host, sig, qstr, hHo, hsig, hqstr, hu⟩ := PathWithParams_ok_shape c p ps u c' hok
  have htok1 : c'.token = c.token := (Host_ok_elim c p host c' hHo).1.2.1
  have hlen : ps.length ≠ 0 := length_ne_zero_of_ne_nil ps hps
  have hsig1 : sig = "s=" ++ md5Hex (strBytes (c.token ++ transformedPath p ++ ("?" ++ Encode ps))) := by
    rw [hsig, Signature_of_token c' _ ps (by rw [htok1]; exact htok) hlen, htok1]
  have hsigne : sig ≠ "" := by
    rw [hsig1]
    exact sig_append_ne _
  have hqstr1 : qstr = replacePlus (Encode ps) ++ "&" ++ sig := by
    rw [hqstr, if_pos ⟨hsigne, Nat.pos_of_ne_zero hlen⟩]
  have hqne : qstr ≠ "" := by
    rw [hqstr1]
    exact append_amp_ne _ _
  refine ⟨sortedParams_sorted ps, host, hHo, ?_⟩
  rw [hu, if_pos hqne, hqstr1, hsig1]
  have hE : Encode ps = joinAmp (encodePieces ps) := rfl
  rw [hE, joinAmp_replacePlus]

/-- Witness for C4 at the token client on the parameters of the test
suite; the hypothesis discharge evaluates the full URL with its digest. -/
theorem claim_C4_witness :
    List.Sorted keyLE (sortedParams [("w", ["400"]), ("h", ["300"])]) :=
  (claim_C4_sorted_params_sig_last testClientWithToken "/users/1.png"
    [("w", ["400"]), ("h", ["300"])]
    "https://my-social-network.imgix.net/users/1.png?h=300&w=400&s=1a4e48641614d1109c6a7af51be23d18"
    resolvedTokenClient (by decide) (by decide) (by decide)).1

/-! ## Claim C1: visible query versus hashed query -/

/-- C1 (amended): with a token and non-empty parameters none of whose
keys or values contains a space — equivalently, whose canonical encoding
contains no plus — the query string the URL carries before the trailing
`s=` parameter is exactly `Encode ps`, the canonical string the signature
hashes after the question mark. -/
theorem claim_C1_visible_equals_hashed (c : Client) (p : String) (ps : Values)
    (u : String) (c' : Client) (htok : c.token ≠ "") (hps : ps ≠ [])
    (hplus : Char.ofNat 43 ∉ (Encode ps).data)
    (hok : c.PathWithParams p ps = .ok (u, c')) :
    ∃ host, c.Host p = .ok (host, c') ∧
      u = urlStringOf (c.Scheme).1 host ++ transformedPath p ++ "?" ++
        (Encode ps ++ "&" ++
          ("s=" ++ md5Hex (strBytes (c.token ++ transformedPath p ++ ("?" ++ Encode ps))))) := by
  obtain ⟨host, sig, qstr, hHo, hsig, hqstr, hu⟩ := PathWithParams_ok_shape c p ps u c' hok
  have htok1 : c'.token = c.token := (Host_ok_elim c p host c' hHo).1.2.1
  have hlen : ps.length ≠ 0 := length_ne_zero_of_ne_nil ps hps
  have hsig1 : sig = "s=" ++ md5Hex (strBytes (c.token ++ transformedPath p ++ ("?" ++ Encode ps))) := by
    rw [hsig, Signature_of_token c' _ ps (by rw [htok1]; exact htok) hlen, htok1]
  have hsigne : sig ≠ "" := by
    rw [hsig1]
    exact sig_append_ne _
  have hqstr1 : qstr = Encode ps ++ "&" ++ sig := by
    rw [hqstr, if_pos ⟨hsigne, Nat.pos_of_ne_zero hlen⟩, replacePlus_of_no_plus _ hplus]
  have hqne : qstr ≠ "" := by
    rw [hqstr1]
    exact append_amp_ne _ _
  refine ⟨host, hHo, ?_⟩
  rw [hu, if_pos hqne, hqstr1, hsig1]

/-- Witness for C1 on space-free parameters: the visible query equals the
hashed canonical query. -/
theorem claim_C1_witness :
    ∃ host, testClientWithToken.Host "/users/1.png" = .ok (host, resolvedTokenClient) ∧
      "https://my-social-network.imgix.net/users/1.png?h=300&w=400&s=1a4e48641614d1109c6a7af51be23d18" =
        urlStringOf (testClientWithToken.Scheme).1 host ++ transformedPath "/users/1.png" ++ "?" ++
          (Encode [("w", ["400"]), ("h", ["300"])] ++ "&" ++
            ("s=" ++ md5Hex (strBytes (testClientWithToken.token ++
              transformedPath "/users/1.png" ++
              ("?" ++ Encode [("w", ["400"]), ("h", ["300"])]))))) :=
  claim_C1_visible_equals_hashed testClientWithToken "/users/1.png"
    [("w", ["400"]), ("h", ["300"])]
    "https://my-social-network.imgix.net/users/1.png?h=300&w=400&s=1a4e48641614d1109c6a7af51be23d18"
    resolvedTokenClient (by decide) (by decide) (by decide) (by decide)

/-- C1 counterexample: with a space in a value the visible query carries
`w=a%%20b` while the signature hashes the canonical `w=a+b`, so the two
encodings differ. -/
theorem claim_C1_counterexample :
    (testClientWithToken.PathWithParams "/users/1.png" [("w", ["a b"])]).map Prod.fst =
      .ok "https://my-social-network.imgix.net/users/1.png?w=a%%20b&s=7fa0c6a1513ee5d0eab432aaada4c153" ∧
    Encode [("w", ["a b"])] = "w=a+b" ∧
    (testClientWithToken.SignatureForPathAndParams "/users/1.png" [("w", ["a b"])]).1 =
      "s=" ++ md5Hex (strBytes "FOO123bar/users/1.png?w=a+b") ∧
    "w=a%%20b" ≠ "w=a+b" := by
  decide

/-! ## Claim C2: the space encoding of the visible query -/

/-- C2 evaluation: line 161 replaces each plus by the literal four
characters `%%20` (`strings.Replace` expands no format verbs), so a space
in a value is emitted as `%%20`, not as the claimed `%20`. -/
theorem claim_C2_bug_eval :
    QueryEscape "a b" = "a+b" ∧
    (testClient.PathWithParams "/u.png" [("w", ["a b"])]).map Prod.fst =
      .ok "https://prod.imgix.net/u.png?w=a%%20b" ∧
    "w=a%%20b" ≠ "w=a%20b" := by
  decide

/-! ## Claim C5: no token, no signature -/

/-- C5 (amended): with an empty token both signature operations return
the empty string, and the URL's query is exactly the encoding of the user
parameters with no signature appended: every emitted fragment is the
encoding of one user-supplied key and value, so an `s=` parameter appears
only when the user supplies a parameter named `s`. -/
theorem claim_C5_no_signature (c : Client) (p : String) (ps : Values)
    (u : String) (c' : Client) (htok : c.token = "")
    (hok : c.PathWithParams p ps = .ok (u, c')) :
    (∀ q, c.SignatureForPath q = ("", c)) ∧
    (∀ q qs, c.SignatureForPathAndParams q qs = ("", c)) ∧
    ∃ host, c.Host p = .ok (host, c') ∧
      u = (if replacePlus (Encode ps) ≠ ""
           then urlStringOf (c.Scheme).1 host ++ transformedPath p ++ "?" ++ replacePlus (Encode ps)
           else urlStringOf (c.Scheme).1 host ++ transformedPath p) ∧
      ∀ piece ∈ (encodePieces ps).map replacePlus, ∃ kv v, kv ∈ ps ∧ v ∈ kv.2 ∧
        piece = replacePlus (QueryEscape kv.1 ++ "=" ++ QueryEscape v) := by
  obtain ⟨host, sig, qstr, hHo, hsig, hqstr, hu⟩ := PathWithParams_ok_shape c p ps u c' hok
  have htok1 : c'.token = "" := by
    rw [(Host_ok_elim c p host c' hHo).1.2.1, htok]
  have hsig1 : sig = "" := by
    rw [hsig, Signature_of_no_token c' _ ps htok1]
  have hqstr1 : qstr = replacePlus (Encode ps) := by
    rw [hqstr, if_neg (by simp [hsig1]), if_neg (by simp [hsig1])]
  refine ⟨fun q => Signature_of_no_token c q [] htok,
    fun q qs => Signature_of_no_token c q qs htok, host, hHo, ?_, ?_⟩
  · rw [hu, hqstr1]
  · intro piece hmem
    rw [List.mem_map] at hmem
    obtain ⟨x, hx, rfl⟩ := hmem
    unfold encodePieces at hx
    rw [List.mem_flatMap] at hx
    obtain ⟨kv, hkv, hx2⟩ := hx
    rw [List.mem_map] at hx2
    obtain ⟨v, hv, rfl⟩ := hx2
    exact ⟨kv, v, (List.perm_insertionSort keyLE ps).subset hkv, hv, rfl⟩

/-- Witness for C5 at the tokenless test client: its hypothesis discharge
evaluates a full tokenless URL, and the signature operation returns the
empty string. -/
theorem claim_C5_witness :
    testClient.SignatureForPath "/x" = ("", testClient) :=
  (claim_C5_no_signature testClient "/u.png" [("w", ["200"])]
    "https://prod.imgix.net/u.png?w=200" cycledTestClient rfl (by decide)).1 "/x"

/-- C5 counterexample: a tokenless client given a user parameter named
`s` returns a URL whose query is the `s=` parameter `s=x`, so the URL of
a tokenless client can contain an `s=` parameter. -/
theorem claim_C5_counterexample :
    testClient.token = "" ∧
    (testClient.PathWithParams "/u.png" [("s", ["x"])]).map Prod.fst =
      .ok "https://prod.imgix.net/u.png?s=x" := by
  decide

/-! ## Claim C3: the CGI escape of fully-qualified paths -/

/-- C3 evaluation: `cgiEscape` replaces one matched rune by the percent
sign and the unpadded uppercase hexadecimal of its code point, so the
two-byte character with code point E9 becomes the single escape `%E9`
rather than the per-byte `%C3%A9` of its UTF-8 bytes that the claim (and
the Ruby `CGI::escape` the function's comment cites) prescribes. -/
theorem claim_C3_bug_eval :
    matchesHTTPAndS "http://é" = true ∧
    strBytes "é" = [195, 169] ∧
    cgiEscape "http://é" = "http%3A%2F%2F%E9" ∧
    (testClient.Path "http://é").map Prod.fst =
      .ok "https://prod.imgix.net/http%3A%2F%2F%E9" ∧
    cgiEscape "http://é" ≠ "http%3A%2F%2F%C3%A9" := by
  decide

/-! ## The embedding reproduces the repository's test suite -/

/-- Three vectors of `imgix_test.go`, digests included, reproduced by the
embedding. -/
theorem embedding_matches_test_suite :
    (testClient.Path "/1/users.jpg").map Prod.fst = .ok "https://prod.imgix.net/1/users.jpg" ∧
    (testClientWithToken.Path "/users/1.png").map Prod.fst =
      .ok "https://my-social-network.imgix.net/users/1.png?s=6797c24146142d5b40bde3141fd3600c" ∧
    (testClientWithToken.Path "http://avatars.com/john-smith.png").map Prod.fst =
      .ok "https://my-social-network.imgix.net/http%3A%2F%2Favatars.com%2Fjohn-smith.png?s=493a52f008c91416351f8b33d4883135" := by
  decide

end Imgix
